import Mathlib

/-!
Verification development for the live-stream scheduler application
(`app.py`): a shallow embedding of its job table, status-marker files,
pid files, process supervision and scheduling logic, together with
theorems settling the specified properties.

Conventions of the embedding:
* The Streamlit session DataFrame `st.session_state.streams` is a
  `List StreamRow`; a job's id is its positional index (pandas
  integer index created by `ignore_index=True` / `reset_index(drop=True)`).
* The per-job files on disk (`stream_<id>.status`, `stream_<id>.pid`)
  are association lists keyed by the job id; writing a file overwrites
  the previous value, deleting removes it.
* The operating-system process table is an association list from pid to
  executable name; delivering SIGTERM to a live pid removes it, while
  `pkill ffmpeg` removes every entry whose name is `ffmpeg`.
* Statuses are the literal strings the code stores: `Menunggu`
  (Waiting), `Sedang Live` (Live), `Selesai` (Completed), `Dihentikan`
  (Stopped), and `error: ...` strings (the string-encoded Error state).
-/

namespace LiveYT

/-! ### Association-list primitives (files keyed by job id, process table) -/

/-- Lookup of the value stored under key `k`; `none` when the file/entry
is absent. -/
def alookup {α : Type} (k : Nat) : List (Nat × α) → Option α
  | [] => none
  | p :: l => if p.1 = k then some p.2 else alookup k l

/-- Removal of every entry with key `k` (deleting a file). -/
def aerase {α : Type} (k : Nat) : List (Nat × α) → List (Nat × α)
  | [] => []
  | p :: l => if p.1 = k then aerase k l else p :: aerase k l

/-- Overwriting write of value `v` under key `k` (opening a file with
mode `w` truncates any previous content). -/
def aset {α : Type} (k : Nat) (v : α) (l : List (Nat × α)) : List (Nat × α) :=
  aerase k l ++ [(k, v)]

/-! ### Python string operations used by the code -/

/-- Character-list version of testing whether the second list begins the
first list. -/
def charsLead : List Char → List Char → Bool
  | [], _ => true
  | _ :: _, [] => false
  | p :: ps, c :: cs => p = c && charsLead ps cs

/-- Embedding of Python `s.startswith(p)`. -/
def pyStartsWith (s p : String) : Bool := charsLead p.data s.data

/-! ### Data model -/

/-- Row of the `st.session_state.streams` DataFrame, with the columns
created in `main` (`Video`, `Durasi`, `Jam Mulai`, `Streaming Key`,
`Status`, `Is Shorts`). Its id is its positional index in the list. -/
structure StreamRow where
  video : String
  durasi : String
  jamMulai : String
  streamingKey : String
  status : String
  isShorts : Bool
deriving DecidableEq, Repr

/-- System state visible at the worker/controller boundary: the session
DataFrame, the per-job `stream_<id>.status` marker files, the per-job
`stream_<id>.pid` files, the OS process table (pid to executable name),
and the per-job `st.session_state.logs` lists. -/
structure SupState where
  streams : List StreamRow
  markers : List (Nat × String)
  pidFiles : List (Nat × Nat)
  procs : List (Nat × String)
  logs : List (Nat × List String)
deriving DecidableEq, Repr

/-- Assignment `st.session_state.streams.loc[row_id, 'Status'] = v` on an
existing row (all call sites address a row present in the table). -/
def setStatus : List StreamRow → Nat → String → List StreamRow
  | [], _, _ => []
  | r :: rs, 0, v => { r with status := v } :: rs
  | r :: rs, i + 1, v => r :: setStatus rs i v

/-! ### Encoder invocation (run_ffmpeg, lines 33-64) -/

/-- Destination URL built in `run_ffmpeg`: the RTMP template with the
stream key appended. -/
def output_url (streamKey : String) : String :=
  "rtmp://a.rtmp.youtube.com/live2/" ++ streamKey

/-- Encoder command list built in `run_ffmpeg`: the fixed argument
block, then `-vf scale=720:1280` exactly when `is_shorts` is set, then
the output URL. -/
def ffmpeg_cmd (videoPath streamKey : String) (isShorts : Bool) : List String :=
  (["ffmpeg", "-re", "-stream_loop", "-1", "-i", videoPath,
    "-c:v", "libx264", "-preset", "veryfast",
    "-b:v", "2500k", "-maxrate", "2500k", "-bufsize", "5000k",
    "-g", "60", "-keyint_min", "60",
    "-c:a", "aac", "-b:a", "128k", "-f", "flv"]
    ++ (if isShorts then ["-vf", "scale=720:1280"] else []))
    ++ [output_url streamKey]

/-! ### Worker outcome (run_ffmpeg, lines 66-111)

The monitoring worker's try block spawns the process, writes the pid
file and the `streaming` marker, drains stdout, calls `process.wait()`
and then writes `completed` — the exit code returned by `wait()` is
never examined. Only an exception (e.g. `Popen` failing because the
encoder binary is missing) reaches the handler that writes
`error: <message>`. The spawn outcome is the `Except` argument; the
exit code of a successfully spawned process is the `Int` argument. -/

/-- Final content of `stream_<id>.status` written by the worker, as a
function of the spawn outcome and the process exit code. -/
def run_ffmpeg_final_marker (spawn : Except String Unit) (exitCode : Int) : String :=
  match spawn, exitCode with
  | .ok _, _ => "completed"
  | .error e, _ => "error: " ++ e

/-- Component performing a write to a `stream_<id>.status` file. -/
inductive MarkerWriter where
  | worker (jobId : Nat)
  | controllerStart (jobId : Nat)
  | controllerStop (jobId : Nat)
deriving DecidableEq, Repr

/-- One write event on the Status Channel: who wrote, which job's file,
and what content. -/
structure MarkerWrite where
  writer : MarkerWriter
  key : Nat
  value : String
deriving DecidableEq, Repr

/-- Test from the spec's words: a marker write is performed by the
worker that owns the job whose file it writes. -/
def writtenByOwningWorker (w : MarkerWrite) : Bool :=
  w.writer = MarkerWriter.worker w.key

/-- Marker writes of the worker thread `run_ffmpeg` for job `rowId`:
`streaming` after a successful spawn then `completed` after the process
exits (lines 75-76 and 90-91); a single `error: <message>` when the try
block raises (lines 102-103). -/
def run_ffmpeg_marker_writes (rowId : Nat) (spawn : Except String Unit) :
    List MarkerWrite :=
  match spawn with
  | .ok _ => [⟨.worker rowId, rowId, "streaming"⟩, ⟨.worker rowId, rowId, "completed"⟩]
  | .error e => [⟨.worker rowId, rowId, "error: " ++ e⟩]

/-- Marker writes of `start_stream` for job `rowId`, executed on the
control thread after the worker thread is launched (lines 142-143). -/
def start_stream_marker_writes (rowId : Nat) : List MarkerWrite :=
  [⟨.controllerStart rowId, rowId, "starting"⟩]

/-- Marker writes of `stop_stream` for job `rowId` on the control
thread: `stopped` is written only on the path where a pid file exists
and the termination signal is delivered (lines 166-168); the
no-pid-file fallback and the exception path write nothing. -/
def stop_stream_marker_writes (rowId : Nat) (hasPid killOk : Bool) : List MarkerWrite :=
  if hasPid then
    (if killOk then [⟨.controllerStop rowId, rowId, "stopped"⟩] else [])
  else []

/-! ### Supervisor start and stop (lines 113-186) -/

/-- Synchronous effect of `start_stream` (lines 113-145): initialise the
job's log list when absent, launch the worker thread (whose own writes
are modelled separately), set the row's status to `Sedang Live` and
write the `starting` marker. The call returns `True`. -/
def start_stream (s : SupState) (rowId : Nat) : SupState :=
  { s with
    logs := match alookup rowId s.logs with
            | none => aset rowId [] s.logs
            | some _ => s.logs
    streams := setStatus s.streams rowId "Sedang Live"
    markers := aset rowId "starting" s.markers }

/-- Effect of `stop_stream` (lines 147-186) on the Unix path
(`os.name` is not `nt`). With a pid file whose pid is alive, `os.kill`
delivers SIGTERM (modelled as the process leaving the table), the
status becomes `Dihentikan`, the `stopped` marker is written and the
pid file is removed, returning `True`. With a pid file whose pid is
gone, `os.kill` raises, the handler shows an error and returns `False`
with no state change. With no pid file, the fallback runs
`pkill ffmpeg` — removing every process named `ffmpeg` — and sets the
status to `Dihentikan`, returning `True` without touching markers or
pid files. -/
def stop_stream (s : SupState) (rowId : Nat) : Bool × SupState :=
  match alookup rowId s.pidFiles with
  | some pid =>
    if (alookup pid s.procs).isSome then
      (true,
        { s with
          procs := aerase pid s.procs
          streams := setStatus s.streams rowId "Dihentikan"
          markers := aset rowId "stopped" s.markers
          pidFiles := aerase rowId s.pidFiles })
    else
      (false, s)
  | none =>
    (true,
      { s with
        procs := s.procs.filter (fun p => p.2 ≠ "ffmpeg")
        streams := setStatus s.streams rowId "Dihentikan" })

/-! ### Controller reconciliation (check_stream_statuses, lines 188-203) -/

/-- Loop body of `check_stream_statuses` from row index `i`, for `n`
remaining rows: when a marker file exists for the row and the row's
status is `Sedang Live`, a `completed` marker sets the status to
`Selesai` and is deleted, and a marker beginning with `error:` is
copied into the status and deleted; every other combination is left
untouched. -/
def reconcileAux : Nat → Nat → SupState → SupState
  | _, 0, s => s
  | i, n + 1, s =>
    match s.streams[i]? with
    | none => reconcileAux (i + 1) n s
    | some r =>
      match alookup i s.markers with
      | none => reconcileAux (i + 1) n s
      | some m =>
        if m = "completed" ∧ r.status = "Sedang Live" then
          reconcileAux (i + 1) n
            { s with streams := setStatus s.streams i "Selesai"
                     markers := aerase i s.markers }
        else if pyStartsWith m "error:" = true ∧ r.status = "Sedang Live" then
          reconcileAux (i + 1) n
            { s with streams := setStatus s.streams i m
                     markers := aerase i s.markers }
        else reconcileAux (i + 1) n s

/-- Full reconciliation pass over the table. -/
def check_stream_statuses (s : SupState) : SupState :=
  reconcileAux 0 s.streams.length s

/-! ### Scheduler (check_scheduled_streams, lines 205-212) -/

/-- Loop body of `check_scheduled_streams` from row index `i`, for `n`
remaining rows, at wall-clock minute `now`: a row whose status is
`Menunggu` and whose `Jam Mulai` equals `now` is started via
`start_stream`. Returns the new state together with the list of row
ids for which `start_stream` was invoked. -/
def schedAux (now : String) : Nat → Nat → SupState → SupState × List Nat
  | _, 0, s => (s, [])
  | i, n + 1, s =>
    match s.streams[i]? with
    | none => schedAux now (i + 1) n s
    | some r =>
      if r.status = "Menunggu" ∧ r.jamMulai = now then
        let res := schedAux now (i + 1) n (start_stream s i)
        (res.1, i :: res.2)
      else schedAux now (i + 1) n s

/-- Full scheduler tick at wall-clock minute `now`. -/
def check_scheduled_streams (s : SupState) (now : String) : SupState × List Nat :=
  schedAux now 0 s.streams.length s

/-! ### Job Store operations (main, lines 295-301 and 342-363) -/

/-- Error taxonomy for the synchronous store operations. -/
inductive StoreError where
  | validationError
  | invalidStateError
deriving DecidableEq, Repr

/-- Row constructed by the add-stream handler (lines 347-354): all
fields from the form, status fixed to `Menunggu`. -/
def new_stream (videoPath streamKey durasi jamMulai : String) (isShorts : Bool) :
    StreamRow :=
  { video := videoPath, durasi := durasi, jamMulai := jamMulai,
    streamingKey := streamKey, status := "Menunggu", isShorts := isShorts }

/-- Add-stream handler (lines 342-363): when either the video path or
the stream key is empty the request is rejected with an error message
and nothing is added; otherwise one new row with status `Menunggu` is
appended (`pd.concat` with `ignore_index=True`, so its id is the old
length). -/
def add_stream (streams : List StreamRow) (videoPath streamKey durasi jamMulai : String)
    (isShorts : Bool) : Except StoreError (List StreamRow) :=
  if videoPath ≠ "" ∧ streamKey ≠ "" then
    .ok (streams ++ [new_stream videoPath streamKey durasi jamMulai isShorts])
  else .error .validationError

/-- Terminal-status test guarding the Remove action (line 295):
`Selesai`, `Dihentikan`, or a status beginning with `error:`. -/
def is_terminal (status : String) : Bool :=
  status = "Selesai" || status = "Dihentikan" || pyStartsWith status "error:"

/-- Remove handler (lines 295-301): available only for a row whose
status is terminal — any other state is rejected with the store
unchanged. On success the row is dropped and the index reset
(`drop(i).reset_index(drop=True)`, i.e. positional erasure), and the
job's log list is deleted. -/
def remove_stream (streams : List StreamRow) (logs : List (Nat × List String)) (i : Nat) :
    Except StoreError (List StreamRow × List (Nat × List String)) :=
  match streams[i]? with
  | none => .error .invalidStateError
  | some r =>
    if is_terminal r.status then .ok (streams.eraseIdx i, aerase i logs)
    else .error .invalidStateError

/-! ### Concrete states used to instantiate the theorems -/

/-- Sample job in the Waiting state. -/
def jobWaiting : StreamRow :=
  { video := "a.mp4", durasi := "01:00:00", jamMulai := "10:00",
    streamingKey := "key1", status := "Menunggu", isShorts := false }

/-- Sample job in the Live state. -/
def jobLive : StreamRow :=
  { video := "b.mp4", durasi := "01:00:00", jamMulai := "11:00",
    streamingKey := "key2", status := "Sedang Live", isShorts := false }

/-- Sample job in the Completed state. -/
def jobDone : StreamRow :=
  { video := "c.mp4", durasi := "01:00:00", jamMulai := "12:00",
    streamingKey := "key3", status := "Selesai", isShorts := true }

/-- Two-job state in which job 0 has no pid file while job 1 is live
with pid 42 backing an `ffmpeg` process. -/
def twoJobState : SupState :=
  { streams := [jobLive, { jobLive with video := "d.mp4" }]
    markers := []
    pidFiles := [(1, 42)]
    procs := [(42, "ffmpeg")]
    logs := [] }

/-- One-job state whose job 0 is live with a pending `completed`
marker. -/
def liveCompletedState : SupState :=
  { streams := [jobLive]
    markers := [(0, "completed")]
    pidFiles := []
    procs := []
    logs := [] }

/-- One-job state with a pid file naming a pid that is no longer in the
process table. -/
def stalePidState : SupState :=
  { streams := [jobLive]
    markers := [(0, "streaming")]
    pidFiles := [(0, 77)]
    procs := []
    logs := [(0, ["line"])] }

/-! ### Lemmas about files, strings and row updates -/

theorem alookup_aerase_self {α : Type} (k : Nat) (l : List (Nat × α)) :
    alookup k (aerase k l) = none := by
  induction l with
  | nil => rfl
  | cons p l ih =>
    by_cases h : p.1 = k
    · simpa [aerase, h] using ih
    · simpa [aerase, alookup, h] using ih

theorem alookup_aerase_ne {α : Type} {j k : Nat} (h : j ≠ k) (l : List (Nat × α)) :
    alookup j (aerase k l) = alookup j l := by
  induction l with
  | nil => rfl
  | cons p l ih =>
    show alookup j (if p.1 = k then aerase k l else p :: aerase k l)
        = alookup j (p :: l)
    by_cases hk : p.1 = k
    · have hj : ¬ p.1 = j := fun hj => h (hj ▸ hk)
      rw [if_pos hk, ih]
      show alookup j l = if p.1 = j then some p.2 else alookup j l
      rw [if_neg hj]
    · rw [if_neg hk]
      show (if p.1 = j then some p.2 else alookup j (aerase k l))
          = if p.1 = j then some p.2 else alookup j l
      rw [ih]

theorem alookup_append_left {α : Type} {k : Nat} {l₁ : List (Nat × α)}
    (l₂ : List (Nat × α)) (h : alookup k l₁ = none) :
    alookup k (l₁ ++ l₂) = alookup k l₂ := by
  induction l₁ with
  | nil => rfl
  | cons p l ih =>
    by_cases hk : p.1 = k
    · simp [alookup, hk] at h
    · simp [alookup, hk] at h ⊢
      exact ih h

theorem alookup_aset_self {α : Type} (k : Nat) (v : α) (l : List (Nat × α)) :
    alookup k (aset k v l) = some v := by
  unfold aset
  rw [alookup_append_left _ (alookup_aerase_self k l)]
  simp [alookup]

theorem alookup_singleton_ne {α : Type} {j k : Nat} (h : j ≠ k) (v : α) :
    alookup j [(k, v)] = none := by
  show (if k = j then some v else none) = none
  rw [if_neg (fun hk => h hk.symm)]

theorem alookup_append {α : Type} (k : Nat) (l₁ l₂ : List (Nat × α)) :
    alookup k (l₁ ++ l₂)
      = match alookup k l₁ with
        | some v => some v
        | none => alookup k l₂ := by
  induction l₁ with
  | nil => rfl
  | cons p l ih =>
    show (if p.1 = k then some p.2 else alookup k (l ++ l₂)) = _
    by_cases hk : p.1 = k
    · rw [if_pos hk]
      show _ = match (if p.1 = k then some p.2 else alookup k l) with
        | some v => some v
        | none => alookup k l₂
      rw [if_pos hk]
    · rw [if_neg hk, ih]
      show _ = match (if p.1 = k then some p.2 else alookup k l) with
        | some v => some v
        | none => alookup k l₂
      rw [if_neg hk]

theorem alookup_aset_ne {α : Type} {j k : Nat} (h : j ≠ k) (v : α) (l : List (Nat × α)) :
    alookup j (aset k v l) = alookup j l := by
  unfold aset
  rw [alookup_append, alookup_aerase_ne h]
  cases hv : alookup j l with
  | some w => rfl
  | none => exact alookup_singleton_ne h v

theorem charsLead_self_append (p t : List Char) : charsLead p (p ++ t) = true := by
  induction p with
  | nil => rfl
  | cons c cs ih => simp [charsLead, ih]

theorem pyStartsWith_self_append (p t : String) : pyStartsWith (p ++ t) p = true := by
  unfold pyStartsWith
  rw [String.data_append]
  exact charsLead_self_append p.data t.data

/-- Every marker the worker writes on failure begins with the tag the
reconciliation loop looks for. -/
theorem errMarker_startsWith (e : String) :
    pyStartsWith ("error: " ++ e) "error:" = true := by
  have hlit : ("error:" ++ " " : String) = "error: " := by decide
  have h : ("error: " ++ e) = "error:" ++ (" " ++ e) := by
    rw [← String.append_assoc, hlit]
  rw [h]
  exact pyStartsWith_self_append "error:" (" " ++ e)

/-- A failure marker is never the completion marker. -/
theorem errMarker_ne_completed (e : String) : ("error: " ++ e) ≠ "completed" := by
  intro h
  have h2 : pyStartsWith "completed" "error:" = true := h ▸ errMarker_startsWith e
  simp [pyStartsWith, charsLead] at h2

theorem length_setStatus (rs : List StreamRow) (i : Nat) (v : String) :
    (setStatus rs i v).length = rs.length := by
  induction rs generalizing i with
  | nil => rfl
  | cons r rs ih =>
    cases i with
    | zero => rfl
    | succ i => simpa [setStatus] using ih i

theorem getElem?_setStatus_self {rs : List StreamRow} {i : Nat} {r : StreamRow}
    (h : rs[i]? = some r) (v : String) :
    (setStatus rs i v)[i]? = some { r with status := v } := by
  induction rs generalizing i with
  | nil => simp at h
  | cons r0 rs ih =>
    cases i with
    | zero => simp at h; simp [setStatus, h]
    | succ i =>
      simp only [List.getElem?_cons_succ] at h
      simpa [setStatus] using ih h

theorem getElem?_setStatus_ne {rs : List StreamRow} {i j : Nat} (h : j ≠ i) (v : String) :
    (setStatus rs i v)[j]? = rs[j]? := by
  induction rs generalizing i j with
  | nil => cases i <;> rfl
  | cons r0 rs ih =>
    cases i with
    | zero =>
      cases j with
      | zero => exact absurd rfl h
      | succ j => simp [setStatus]
    | succ i =>
      cases j with
      | zero => simp [setStatus]
      | succ j =>
        simp only [setStatus, List.getElem?_cons_succ]
        have hji : j ≠ i := fun hh => h (congrArg (· + 1) hh)
        exact ih hji

/-! ### Lemmas about the scheduler loop -/

theorem getElem?_some_lt {α : Type} {l : List α} {i : Nat} {a : α}
    (h : l[i]? = some a) : i < l.length := by
  by_contra hh
  rw [List.getElem?_eq_none (by omega)] at h
  cases h

theorem start_stream_streams_length (s : SupState) (rowId : Nat) :
    (start_stream s rowId).streams.length = s.streams.length :=
  length_setStatus s.streams rowId "Sedang Live"

theorem start_stream_streams_ne {s : SupState} {rowId j : Nat} (h : j ≠ rowId) :
    (start_stream s rowId).streams[j]? = s.streams[j]? :=
  getElem?_setStatus_ne h "Sedang Live"

theorem start_stream_markers_ne {s : SupState} {rowId j : Nat} (h : j ≠ rowId) :
    alookup j (start_stream s rowId).markers = alookup j s.markers :=
  alookup_aset_ne h "starting" s.markers

theorem schedAux_length (now : String) (n : Nat) :
    ∀ (i : Nat) (s : SupState),
      (schedAux now i n s).1.streams.length = s.streams.length := by
  induction n with
  | zero => intro i s; rfl
  | succ n ih =>
    intro i s
    cases hri : s.streams[i]? with
    | none => simp only [schedAux, hri]; exact ih (i + 1) s
    | some r =>
      by_cases hc : r.status = "Menunggu" ∧ r.jamMulai = now
      · simp only [schedAux, hri, if_pos hc]
        rw [ih (i + 1) (start_stream s i)]
        exact start_stream_streams_length s i
      · simp only [schedAux, hri, if_neg hc]
        exact ih (i + 1) s

theorem schedAux_lt (now : String) (n : Nat) :
    ∀ (i : Nat) (s : SupState) (j : Nat), j < i →
      (schedAux now i n s).1.streams[j]? = s.streams[j]? ∧
      alookup j (schedAux now i n s).1.markers = alookup j s.markers := by
  induction n with
  | zero => intro i s j _; exact ⟨rfl, rfl⟩
  | succ n ih =>
    intro i s j hj
    cases hri : s.streams[i]? with
    | none => simp only [schedAux, hri]; exact ih (i + 1) s j (by omega)
    | some r =>
      by_cases hc : r.status = "Menunggu" ∧ r.jamMulai = now
      · simp only [schedAux, hri, if_pos hc]
        have hji : j ≠ i := by omega
        obtain ⟨h1, h2⟩ := ih (i + 1) (start_stream s i) j (by omega)
        refine ⟨?_, ?_⟩
        · rw [h1]; exact start_stream_streams_ne hji
        · rw [h2]; exact start_stream_markers_ne hji
      · simp only [schedAux, hri, if_neg hc]
        exact ih (i + 1) s j (by omega)

theorem schedAux_ids_ge (now : String) (n : Nat) :
    ∀ (i : Nat) (s : SupState) (j : Nat), j ∈ (schedAux now i n s).2 → i ≤ j := by
  induction n with
  | zero => intro i s j hj; cases hj
  | succ n ih =>
    intro i s j hj
    cases hri : s.streams[i]? with
    | none =>
      simp only [schedAux, hri] at hj
      exact Nat.le_of_succ_le (ih (i + 1) s j hj)
    | some r =>
      by_cases hc : r.status = "Menunggu" ∧ r.jamMulai = now
      · simp only [schedAux, hri, if_pos hc, List.mem_cons] at hj
        rcases hj with hj | hj
        · omega
        · exact Nat.le_of_succ_le (ih (i + 1) (start_stream s i) j hj)
      · simp only [schedAux, hri, if_neg hc] at hj
        exact Nat.le_of_succ_le (ih (i + 1) s j hj)

theorem schedAux_main (now : String) (n : Nat) :
    ∀ (i : Nat) (s : SupState) (idx : Nat) (r : StreamRow),
      i ≤ idx → idx < i + n → s.streams[idx]? = some r →
      ((r.status = "Menunggu" ∧ r.jamMulai = now →
          (schedAux now i n s).1.streams[idx]? = some { r with status := "Sedang Live" } ∧
          alookup idx (schedAux now i n s).1.markers = some "starting" ∧
          idx ∈ (schedAux now i n s).2) ∧
       (¬(r.status = "Menunggu" ∧ r.jamMulai = now) →
          (schedAux now i n s).1.streams[idx]? = some r ∧
          alookup idx (schedAux now i n s).1.markers = alookup idx s.markers ∧
          idx ∉ (schedAux now i n s).2)) := by
  induction n with
  | zero => intro i s idx r h1 h2 _; omega
  | succ n ih =>
    intro i s idx r hle hlt hr
    cases hri : s.streams[i]? with
    | none =>
      have hne : idx ≠ i := fun hh => by rw [hh, hri] at hr; cases hr
      simp only [schedAux, hri]
      exact ih (i + 1) s idx r (by omega) (by omega) hr
    | some r0 =>
      by_cases hc : r0.status = "Menunggu" ∧ r0.jamMulai = now
      · simp only [schedAux, hri, if_pos hc]
        by_cases hidx : idx = i
        · subst hidx
          have hrr : r = r0 := by rw [hri] at hr; cases hr; rfl
          subst hrr
          constructor
          · intro _
            obtain ⟨hs1, hs2⟩ := schedAux_lt now n (idx + 1) (start_stream s idx) idx (by omega)
            refine ⟨?_, ?_, ?_⟩
            · rw [hs1]; exact getElem?_setStatus_self hr "Sedang Live"
            · rw [hs2]; exact alookup_aset_self idx "starting" s.markers
            · exact List.mem_cons_self idx _
          · intro hnc; exact absurd hc hnc
        · have hgt : i + 1 ≤ idx := by omega
          have hr' : (start_stream s i).streams[idx]? = some r := by
            rw [start_stream_streams_ne hidx]; exact hr
          obtain ⟨hmatch, hnomatch⟩ :=
            ih (i + 1) (start_stream s i) idx r hgt (by omega) hr'
          constructor
          · intro hcm
            obtain ⟨a, b, c⟩ := hmatch hcm
            exact ⟨a, b, List.mem_cons_of_mem i c⟩
          · intro hcm
            obtain ⟨a, b, c⟩ := hnomatch hcm
            refine ⟨a, ?_, ?_⟩
            · rw [b]; exact start_stream_markers_ne hidx
            · intro hmem
              rcases List.mem_cons.mp hmem with hh | hh
              · exact hidx hh
              · exact c hh
      · simp only [schedAux, hri, if_neg hc]
        by_cases hidx : idx = i
        · subst hidx
          have hrr : r = r0 := by rw [hri] at hr; cases hr; rfl
          subst hrr
          constructor
          · intro hcm; exact absurd hcm hc
          · intro _
            obtain ⟨hs1, hs2⟩ := schedAux_lt now n (idx + 1) s idx (by omega)
            refine ⟨by rw [hs1]; exact hr, hs2, ?_⟩
            intro hmem
            have := schedAux_ids_ge now n (idx + 1) s idx hmem
            omega
        · exact ih (i + 1) s idx r (by omega) (by omega) hr

theorem schedAux_nomatch (now : String) (n : Nat) :
    ∀ (i : Nat) (s : SupState),
      (∀ idx r, i ≤ idx → s.streams[idx]? = some r →
        ¬(r.status = "Menunggu" ∧ r.jamMulai = now)) →
      schedAux now i n s = (s, []) := by
  induction n with
  | zero => intro i s _; rfl
  | succ n ih =>
    intro i s hno
    cases hri : s.streams[i]? with
    | none =>
      simp only [schedAux, hri]
      exact ih (i + 1) s (fun idx r h1 h2 => hno idx r (by omega) h2)
    | some r0 =>
      have hc : ¬(r0.status = "Menunggu" ∧ r0.jamMulai = now) :=
        hno i r0 (Nat.le_refl i) hri
      simp only [schedAux, hri, if_neg hc]
      exact ih (i + 1) s (fun idx r h1 h2 => hno idx r (by omega) h2)

/-! ### Lemmas about the reconciliation loop -/

theorem reconcileAux_lt (n : Nat) :
    ∀ (i : Nat) (s : SupState) (j : Nat), j < i →
      (reconcileAux i n s).streams[j]? = s.streams[j]? ∧
      alookup j (reconcileAux i n s).markers = alookup j s.markers := by
  induction n with
  | zero => intro i s j _; exact ⟨rfl, rfl⟩
  | succ n ih =>
    intro i s j hj
    have hji : j ≠ i := by omega
    cases hri : s.streams[i]? with
    | none => simp only [reconcileAux, hri]; exact ih (i + 1) s j (by omega)
    | some r =>
      cases hmi : alookup i s.markers with
      | none => simp only [reconcileAux, hri, hmi]; exact ih (i + 1) s j (by omega)
      | some m =>
        by_cases hc1 : m = "completed" ∧ r.status = "Sedang Live"
        · simp only [reconcileAux, hri, hmi, if_pos hc1]
          obtain ⟨h1, h2⟩ := ih (i + 1) _ j (by omega)
          refine ⟨?_, ?_⟩
          · rw [h1]; exact getElem?_setStatus_ne hji "Selesai"
          · rw [h2]; exact alookup_aerase_ne hji s.markers
        · by_cases hc2 : pyStartsWith m "error:" = true ∧ r.status = "Sedang Live"
          · simp only [reconcileAux, hri, hmi, if_neg hc1, if_pos hc2]
            obtain ⟨h1, h2⟩ := ih (i + 1) _ j (by omega)
            refine ⟨?_, ?_⟩
            · rw [h1]; exact getElem?_setStatus_ne hji m
            · rw [h2]; exact alookup_aerase_ne hji s.markers
          · simp only [reconcileAux, hri, hmi, if_neg hc1, if_neg hc2]
            exact ih (i + 1) s j (by omega)

theorem reconcileAux_main (n : Nat) :
    ∀ (i : Nat) (s : SupState) (idx : Nat) (r : StreamRow),
      i ≤ idx → idx < i + n → s.streams[idx]? = some r →
      ((alookup idx s.markers = some "completed" ∧ r.status = "Sedang Live" →
          (reconcileAux i n s).streams[idx]? = some { r with status := "Selesai" } ∧
          alookup idx (reconcileAux i n s).markers = none) ∧
       (∀ m, alookup idx s.markers = some m → pyStartsWith m "error:" = true →
          r.status = "Sedang Live" →
          (reconcileAux i n s).streams[idx]? = some { r with status := m } ∧
          alookup idx (reconcileAux i n s).markers = none) ∧
       (r.status ≠ "Sedang Live" ∨ alookup idx s.markers = none ∨
          (∃ m, alookup idx s.markers = some m ∧ m ≠ "completed" ∧
            pyStartsWith m "error:" = false) →
          (reconcileAux i n s).streams[idx]? = some r ∧
          alookup idx (reconcileAux i n s).markers = alookup idx s.markers)) := by
  induction n with
  | zero => intro i s idx r h1 h2 _; omega
  | succ n ih =>
    intro i s idx r hle hlt hr
    cases hri : s.streams[i]? with
    | none =>
      have hne : idx ≠ i := fun hh => by rw [hh, hri] at hr; cases hr
      simp only [reconcileAux, hri]
      exact ih (i + 1) s idx r (by omega) (by omega) hr
    | some r0 =>
      by_cases hidx : idx = i
      · subst hidx
        have hrr : r = r0 := by rw [hri] at hr; cases hr; rfl
        subst hrr
        cases hmi : alookup idx s.markers with
        | none =>
          simp only [reconcileAux, hri, hmi]
          obtain ⟨hs1, hs2⟩ := reconcileAux_lt n (idx + 1) s idx (by omega)
          refine ⟨?_, ?_, ?_⟩
          · rintro ⟨hm, _⟩; exact Option.noConfusion hm
          · intro m hm; exact Option.noConfusion hm
          · intro _
            exact ⟨by rw [hs1]; exact hr, by rw [hs2]; exact hmi⟩
        | some m0 =>
          by_cases hc1 : m0 = "completed" ∧ r.status = "Sedang Live"
          · simp only [reconcileAux, hri, hmi, if_pos hc1]
            obtain ⟨hs1, hs2⟩ := reconcileAux_lt n (idx + 1)
              { s with streams := setStatus s.streams idx "Selesai"
                       markers := aerase idx s.markers } idx (by omega)
            refine ⟨?_, ?_, ?_⟩
            · intro _
              refine ⟨?_, ?_⟩
              · rw [hs1]; exact getElem?_setStatus_self hr "Selesai"
              · rw [hs2]; exact alookup_aerase_self idx s.markers
            · intro m hm hme _
              cases hm
              rw [hc1.1] at hme
              simp [pyStartsWith, charsLead] at hme
            · intro hother
              rcases hother with hh | hh | ⟨m, hm, hmc, _⟩
              · exact absurd hc1.2 hh
              · exact Option.noConfusion hh
              · cases hm; exact absurd hc1.1 hmc
          · by_cases hc2 : pyStartsWith m0 "error:" = true ∧ r.status = "Sedang Live"
            · simp only [reconcileAux, hri, hmi, if_neg hc1, if_pos hc2]
              obtain ⟨hs1, hs2⟩ := reconcileAux_lt n (idx + 1)
                { s with streams := setStatus s.streams idx m0
                         markers := aerase idx s.markers } idx (by omega)
              refine ⟨?_, ?_, ?_⟩
              · rintro ⟨hm, hst⟩
                cases hm
                exact absurd ⟨rfl, hst⟩ hc1
              · intro m hm _ _
                cases hm
                refine ⟨?_, ?_⟩
                · rw [hs1]; exact getElem?_setStatus_self hr m0
                · rw [hs2]; exact alookup_aerase_self idx s.markers
              · intro hother
                rcases hother with hh | hh | ⟨m, hm, _, hmp⟩
                · exact absurd hc2.2 hh
                · exact Option.noConfusion hh
                · cases hm
                  rw [hc2.1] at hmp; cases hmp
            · simp only [reconcileAux, hri, hmi, if_neg hc1, if_neg hc2]
              obtain ⟨hs1, hs2⟩ := reconcileAux_lt n (idx + 1) s idx (by omega)
              refine ⟨?_, ?_, ?_⟩
              · rintro ⟨hm, hst⟩
                cases hm
                exact absurd ⟨rfl, hst⟩ hc1
              · intro m hm hme hst
                cases hm
                exact absurd ⟨hme, hst⟩ hc2
              · intro _
                exact ⟨by rw [hs1]; exact hr, by rw [hs2]; exact hmi⟩
      · have hgt : i + 1 ≤ idx := by omega
        cases hmi : alookup i s.markers with
        | none =>
          simp only [reconcileAux, hri, hmi]
          exact ih (i + 1) s idx r hgt (by omega) hr
        | some m0 =>
          by_cases hc1 : m0 = "completed" ∧ r0.status = "Sedang Live"
          · simp only [reconcileAux, hri, hmi, if_pos hc1]
            have hr' : (setStatus s.streams i "Selesai")[idx]? = some r :=
              by rw [getElem?_setStatus_ne hidx]; exact hr
            have hmk : alookup idx (aerase i s.markers) = alookup idx s.markers :=
              alookup_aerase_ne hidx s.markers
            obtain ⟨ha, hb, hc⟩ := ih (i + 1)
              { s with streams := setStatus s.streams i "Selesai"
                       markers := aerase i s.markers } idx r hgt (by omega) hr'
            refine ⟨?_, ?_, ?_⟩
            · intro hyp; exact ha ⟨by rw [hmk]; exact hyp.1, hyp.2⟩
            · intro m hm hme hst; exact hb m (by rw [hmk]; exact hm) hme hst
            · intro hother
              have hres := hc (by
                rcases hother with hh | hh | ⟨m, hm, hmc, hmp⟩
                · exact Or.inl hh
                · exact Or.inr (Or.inl (by rw [hmk]; exact hh))
                · exact Or.inr (Or.inr ⟨m, by rw [hmk]; exact hm, hmc, hmp⟩))
              exact ⟨hres.1, by rw [hres.2]; exact hmk⟩
          · by_cases hc2 : pyStartsWith m0 "error:" = true ∧ r0.status = "Sedang Live"
            · simp only [reconcileAux, hri, hmi, if_neg hc1, if_pos hc2]
              have hr' : (setStatus s.streams i m0)[idx]? = some r :=
                by rw [getElem?_setStatus_ne hidx]; exact hr
              have hmk : alookup idx (aerase i s.markers) = alookup idx s.markers :=
                alookup_aerase_ne hidx s.markers
              obtain ⟨ha, hb, hc⟩ := ih (i + 1)
                { s with streams := setStatus s.streams i m0
                         markers := aerase i s.markers } idx r hgt (by omega) hr'
              refine ⟨?_, ?_, ?_⟩
              · intro hyp; exact ha ⟨by rw [hmk]; exact hyp.1, hyp.2⟩
              · intro m hm hme hst; exact hb m (by rw [hmk]; exact hm) hme hst
              · intro hother
                have hres := hc (by
                  rcases hother with hh | hh | ⟨m, hm, hmc, hmp⟩
                  · exact Or.inl hh
                  · exact Or.inr (Or.inl (by rw [hmk]; exact hh))
                  · exact Or.inr (Or.inr ⟨m, by rw [hmk]; exact hm, hmc, hmp⟩))
                exact ⟨hres.1, by rw [hres.2]; exact hmk⟩
            · simp only [reconcileAux, hri, hmi, if_neg hc1, if_neg hc2]
              exact ih (i + 1) s idx r hgt (by omega) hr

/-! ### List lemmas for positional ids -/

theorem getElem?_of_lt {α : Type} {l : List α} {i : Nat} (h : i < l.length) :
    ∃ a, l[i]? = some a := by
  induction l generalizing i with
  | nil => simp at h
  | cons a l ih =>
    cases i with
    | zero => exact ⟨a, by simp⟩
    | succ i =>
      simp only [List.getElem?_cons_succ]
      exact ih (by simp at h; omega)

theorem getElem?_append_lt {α : Type} (l₁ l₂ : List α) (j : Nat) (h : j < l₁.length) :
    (l₁ ++ l₂)[j]? = l₁[j]? := by
  induction l₁ generalizing j with
  | nil => simp at h
  | cons a l ih =>
    cases j with
    | zero => simp
    | succ j =>
      simp only [List.cons_append, List.getElem?_cons_succ]
      exact ih j (by simp at h; omega)

theorem getElem?_concat_self {α : Type} (l : List α) (a : α) :
    (l ++ [a])[l.length]? = some a := by
  induction l with
  | nil => rfl
  | cons b l ih =>
    simp only [List.cons_append, List.length_cons, List.getElem?_cons_succ]
    exact ih

theorem getLast?_concat_self {α : Type} (l : List α) (a : α) :
    (l ++ [a]).getLast? = some a := by
  induction l with
  | nil => rfl
  | cons b l ih =>
    cases l with
    | nil => rfl
    | cons c t =>
      rw [List.cons_append, List.cons_append, List.getLast?_cons_cons,
        ← List.cons_append]
      exact ih

theorem getElem?_eraseIdx_lt {α : Type} (l : List α) (i j : Nat) (h : j < i) :
    (l.eraseIdx i)[j]? = l[j]? := by
  induction l generalizing i j with
  | nil => simp [List.eraseIdx]
  | cons a l ih =>
    cases i with
    | zero => omega
    | succ i =>
      cases j with
      | zero => simp [List.eraseIdx]
      | succ j =>
        simp only [List.eraseIdx, List.getElem?_cons_succ]
        exact ih i j (by omega)

theorem getElem?_eraseIdx_ge {α : Type} (l : List α) (i j : Nat) (h : i ≤ j) :
    (l.eraseIdx i)[j]? = l[j + 1]? := by
  induction l generalizing i j with
  | nil => simp [List.eraseIdx]
  | cons a l ih =>
    cases i with
    | zero => simp [List.eraseIdx]
    | succ i =>
      cases j with
      | zero => omega
      | succ j =>
        simp only [List.eraseIdx, List.getElem?_cons_succ]
        exact ih i j (by omega)

theorem length_eraseIdx_of_lt {α : Type} (l : List α) (i : Nat) (h : i < l.length) :
    (l.eraseIdx i).length + 1 = l.length := by
  induction l generalizing i with
  | nil => simp at h
  | cons a l ih =>
    cases i with
    | zero => rfl
    | succ i =>
      simp only [List.eraseIdx, List.length_cons]
      rw [ih i (by simpa using Nat.lt_of_succ_lt_succ h)]

/-! ### Claim theorems -/

/-- C10: when a job has a recorded Process Handle but delivering the
termination signal raises (the recorded pid is no longer a live
process), `stop_stream` returns failure and the entire state — the
job's status, its status marker, its pid file, and everything else —
is left unchanged; in particular the status is not set to Stopped. -/
theorem stop_with_stale_handle_fails_without_any_change
    (s : SupState) (rowId pid : Nat)
    (h1 : alookup rowId s.pidFiles = some pid)
    (h2 : alookup pid s.procs = none) :
    stop_stream s rowId = (false, s) := by
  simp only [stop_stream, h1, h2, Option.isSome_none, Bool.false_eq_true, if_false]

/-- Witness for the stale-handle stop theorem on a concrete state. -/
theorem stop_with_stale_handle_fails_without_any_change_witness :
    stop_stream stalePidState 0 = (false, stalePidState) :=
  stop_with_stale_handle_fails_without_any_change stalePidState 0 77
    (by decide) (by decide)

/-- C4 counterexample: stopping job 0, which has no Process Handle,
falls back to `pkill ffmpeg` and kills the process backing job 1 — so
the call is not a no-op on the rest of the system. The claim that
nothing but the stopped job's status changes is false on this state. -/
theorem stop_without_handle_kills_other_jobs_process :
    alookup 0 twoJobState.pidFiles = none ∧
    alookup 1 twoJobState.pidFiles = some 42 ∧
    alookup 42 twoJobState.procs = some "ffmpeg" ∧
    (stop_stream twoJobState 0).1 = true ∧
    alookup 42 (stop_stream twoJobState 0).2.procs = none := by
  decide

/-- C4 amended: stopping a job with no Process Handle succeeds and sets
that job's status to Stopped, leaves every pid file, every marker,
every log and every other job's status untouched, but removes every
`ffmpeg` process from the process table (the `pkill ffmpeg` fallback),
so other jobs' encoder processes are killed as collateral. -/
theorem stop_without_handle_sets_stopped_but_pkills
    (s : SupState) (rowId : Nat) (h : alookup rowId s.pidFiles = none) :
    (stop_stream s rowId).1 = true ∧
    (stop_stream s rowId).2.pidFiles = s.pidFiles ∧
    (stop_stream s rowId).2.markers = s.markers ∧
    (stop_stream s rowId).2.logs = s.logs ∧
    (stop_stream s rowId).2.procs = s.procs.filter (fun p => p.2 ≠ "ffmpeg") ∧
    (stop_stream s rowId).2.streams[rowId]?
      = (s.streams[rowId]?).map (fun r => { r with status := "Dihentikan" }) ∧
    (∀ j, j ≠ rowId → (stop_stream s rowId).2.streams[j]? = s.streams[j]?) := by
  have hs : stop_stream s rowId
      = (true, { s with
          procs := s.procs.filter (fun p => p.2 ≠ "ffmpeg")
          streams := setStatus s.streams rowId "Dihentikan" }) := by
    simp only [stop_stream, h]
  rw [hs]
  refine ⟨rfl, rfl, rfl, rfl, rfl, ?_, ?_⟩
  · cases hr : s.streams[rowId]? with
    | none =>
      have hlen : s.streams.length ≤ rowId := by
        by_contra hh
        obtain ⟨a, ha⟩ := getElem?_of_lt (l := s.streams) (i := rowId) (by omega)
        rw [ha] at hr; cases hr
      rw [List.getElem?_eq_none
        (by rw [length_setStatus]; exact hlen)]
      rfl
    | some r => rw [getElem?_setStatus_self hr "Dihentikan"]; rfl
  · intro j hj
    exact getElem?_setStatus_ne hj "Dihentikan"

/-- Witness for the amended no-handle stop theorem on a concrete
state. -/
theorem stop_without_handle_sets_stopped_but_pkills_witness :
    (stop_stream twoJobState 0).1 = true ∧
    (stop_stream twoJobState 0).2.streams[0]?
      = (twoJobState.streams[0]?).map (fun r => { r with status := "Dihentikan" }) :=
  ⟨(stop_without_handle_sets_stopped_but_pkills twoJobState 0 (by decide)).1,
   (stop_without_handle_sets_stopped_but_pkills twoJobState 0 (by decide)).2.2.2.2.2.1⟩

/-- C9: removal is rejected with `InvalidStateError` — with the store
untouched, since no new store is produced — whenever the job's status
is not terminal (`Selesai`, `Dihentikan`, or an `error:` status); when
the status is terminal, removal deletes the job's record (the store
shrinks by exactly that row) and that job's log entries. -/
theorem remove_gated_on_terminal_status
    (streams : List StreamRow) (logs : List (Nat × List String)) (i : Nat)
    (r : StreamRow) (h : streams[i]? = some r) :
    (is_terminal r.status = false →
      remove_stream streams logs i = .error .invalidStateError) ∧
    (is_terminal r.status = true →
      remove_stream streams logs i = .ok (streams.eraseIdx i, aerase i logs) ∧
      (streams.eraseIdx i).length + 1 = streams.length ∧
      alookup i (aerase i logs) = none) := by
  constructor
  · intro ht
    simp only [remove_stream, h, ht, Bool.false_eq_true, if_false]
  · intro ht
    refine ⟨by simp only [remove_stream, h, ht, if_true], ?_, ?_⟩
    · exact length_eraseIdx_of_lt streams i (getElem?_some_lt h)
    · exact alookup_aerase_self i logs

/-- Witness for the removal theorem on a concrete store. -/
theorem remove_gated_on_terminal_status_witness :
    remove_stream [jobDone, jobWaiting] [(0, ["l"])] 0
      = .ok ([jobWaiting], []) ∧
    remove_stream [jobWaiting] [] 0 = .error .invalidStateError :=
  ⟨by
    have h := (remove_gated_on_terminal_status [jobDone, jobWaiting]
      [(0, ["l"])] 0 jobDone (by decide)).2 (by decide)
    rw [h.1]
    rfl,
   (remove_gated_on_terminal_status [jobWaiting] [] 0 jobWaiting
      (by decide)).1 (by decide)⟩

/-- C8: the add-stream handler rejects an empty video path or an empty
stream key with a validation error and adds nothing (no store is
produced); on a valid input it appends exactly one record, that record
has status `Menunggu` (Waiting), and all existing records are left in
place. -/
theorem create_rejects_empty_fields_and_appends_waiting
    (streams : List StreamRow) (vp sk du jm : String) (sh : Bool) :
    ((vp = "" ∨ sk = "") →
      add_stream streams vp sk du jm sh = .error .validationError) ∧
    (vp ≠ "" → sk ≠ "" →
      add_stream streams vp sk du jm sh
        = .ok (streams ++ [new_stream vp sk du jm sh]) ∧
      (new_stream vp sk du jm sh).status = "Menunggu" ∧
      (streams ++ [new_stream vp sk du jm sh]).length = streams.length + 1 ∧
      (streams ++ [new_stream vp sk du jm sh])[streams.length]?
        = some (new_stream vp sk du jm sh) ∧
      (∀ j, j < streams.length →
        (streams ++ [new_stream vp sk du jm sh])[j]? = streams[j]?)) := by
  constructor
  · intro hempty
    have hcond : ¬(vp ≠ "" ∧ sk ≠ "") := by
      rcases hempty with hh | hh
      · exact fun hc => hc.1 hh
      · exact fun hc => hc.2 hh
    simp only [add_stream, if_neg hcond]
  · intro hvp hsk
    refine ⟨by simp only [add_stream, if_pos (And.intro hvp hsk)], rfl, ?_, ?_, ?_⟩
    · simp
    · exact getElem?_concat_self streams _
    · intro j hj
      exact getElem?_append_lt streams _ j hj

/-- Witness for the creation theorem at concrete inputs. -/
theorem create_rejects_empty_fields_and_appends_waiting_witness :
    add_stream [] "" "k" "01:00:00" "10:00" false = .error .validationError ∧
    add_stream [] "a.mp4" "key1" "01:00:00" "10:00" false
      = .ok [new_stream "a.mp4" "key1" "01:00:00" "10:00" false] :=
  ⟨(create_rejects_empty_fields_and_appends_waiting [] "" "k" "01:00:00"
      "10:00" false).1 (Or.inl rfl),
   ((create_rejects_empty_fields_and_appends_waiting [] "a.mp4" "key1"
      "01:00:00" "10:00" false).2 (by decide) (by decide)).1⟩

/-- C7: the encoder command contains the consecutive argument pair
`-vf scale=720:1280` exactly when the job's shorts (vertical) flag is
set, and its final argument — the destination URL — is exactly the
RTMP template with the stream key appended. -/
theorem ffmpeg_cmd_scale_iff_shorts_and_url_from_key
    (vp sk : String) (sh : Bool) :
    ((∃ i, (ffmpeg_cmd vp sk sh)[i]? = some "-vf" ∧
        (ffmpeg_cmd vp sk sh)[i + 1]? = some "scale=720:1280") ↔ sh = true) ∧
    (ffmpeg_cmd vp sk sh).getLast? = some ("rtmp://a.rtmp.youtube.com/live2/" ++ sk) := by
  constructor
  · constructor
    · rintro ⟨i, h1, h2⟩
      cases sh with
      | true => rfl
      | false =>
        exfalso
        have hlen : i + 1 < (ffmpeg_cmd vp sk false).length := getElem?_some_lt h2
        have hlen27 : (ffmpeg_cmd vp sk false).length = 27 := by
          simp [ffmpeg_cmd]
        rw [hlen27] at hlen
        have hub : i < 26 := by omega
        interval_cases i <;> simp_all [ffmpeg_cmd, output_url]
    · intro hsh
      subst hsh
      refine ⟨26, ?_, ?_⟩ <;> simp [ffmpeg_cmd]
  · show ((_ ++ _) ++ [output_url sk]).getLast? = _
    rw [getLast?_concat_self]
    rfl

/-- C5 counterexample: the `starting` and `stopped` markers are written
on the control thread by `start_stream` and `stop_stream`, not by the
worker owning the job — so the Status Marker for a job id is not
written only by that job's worker. -/
theorem controller_writes_markers_too :
    (⟨MarkerWriter.controllerStart 0, 0, "starting"⟩ : MarkerWrite)
        ∈ start_stream_marker_writes 0 ∧
    writtenByOwningWorker ⟨MarkerWriter.controllerStart 0, 0, "starting"⟩ = false ∧
    (⟨MarkerWriter.controllerStop 0, 0, "stopped"⟩ : MarkerWrite)
        ∈ stop_stream_marker_writes 0 true true ∧
    writtenByOwningWorker ⟨MarkerWriter.controllerStop 0, 0, "stopped"⟩ = false := by
  decide

/-- C5 amended: every Status Marker write performed while operating on
job `j` — by the owning worker, by `start_stream`, or by `stop_stream`
— targets job `j`'s own marker file and no other job's; the worker's
writes are indeed all performed by the worker owning that job, but the
controller-side `start_stream` and `stop_stream` also write the job's
marker (`starting` resp. `stopped`). -/
theorem marker_writes_target_only_their_own_job (j : Nat) :
    (∀ w ∈ start_stream_marker_writes j, w.key = j) ∧
    (∀ hasPid killOk : Bool, ∀ w ∈ stop_stream_marker_writes j hasPid killOk,
      w.key = j) ∧
    (∀ spawn : Except String Unit, ∀ w ∈ run_ffmpeg_marker_writes j spawn,
      w.key = j ∧ writtenByOwningWorker w = true) := by
  refine ⟨?_, ?_, ?_⟩
  · intro w hw
    simp only [start_stream_marker_writes, List.mem_singleton] at hw
    subst hw; rfl
  · intro hasPid killOk w hw
    cases hasPid <;> cases killOk <;>
      (simp [stop_stream_marker_writes] at hw
       try (subst hw; rfl))
  · intro spawn w hw
    cases spawn with
    | ok u =>
      simp only [run_ffmpeg_marker_writes, List.mem_cons,
        List.mem_singleton, List.not_mem_nil, or_false] at hw
      rcases hw with hw | hw <;> subst hw <;>
        exact ⟨rfl, by simp [writtenByOwningWorker]⟩
    | error e =>
      simp only [run_ffmpeg_marker_writes, List.mem_singleton] at hw
      subst hw
      exact ⟨rfl, by simp [writtenByOwningWorker]⟩

/-- C1 counterexample: a successfully spawned encoder process that
exits with the nonzero code 1 still gets the marker `completed` —
`process.wait()`'s return value is never examined — contradicting the
claim that `completed` is written if and only if the exit code is 0. -/
theorem completed_marker_written_on_nonzero_exit :
    run_ffmpeg_final_marker (Except.ok ()) 1 = "completed" ∧ (1 : Int) ≠ 0 :=
  ⟨rfl, by decide⟩

/-- C1 amended: the worker writes `completed` exactly when the spawn
succeeded and the try block ran to completion, regardless of the exit
code; on an exception (e.g. spawn failure) it writes `error: <message>`
whose payload after `error:` is non-empty, and reconciliation of a
`Sedang Live` job holding such a marker copies the error string into
the job's status (the string-encoded Error state) and consumes the
marker. -/
theorem marker_reflects_spawn_outcome_not_exit_code
    (spawn : Except String Unit) (ec : Int) :
    (run_ffmpeg_final_marker spawn ec = "completed" ↔ spawn = Except.ok ()) ∧
    (∀ e, spawn = Except.error e →
      run_ffmpeg_final_marker spawn ec = "error: " ++ e ∧
      pyStartsWith (run_ffmpeg_final_marker spawn ec) "error:" = true ∧
      (∃ msg, run_ffmpeg_final_marker spawn ec = "error:" ++ msg ∧ msg ≠ "") ∧
      (∀ r : StreamRow, r.status = "Sedang Live" →
        check_stream_statuses
            { streams := [r]
              markers := [(0, run_ffmpeg_final_marker spawn ec)]
              pidFiles := []
              procs := []
              logs := [] }
          = { streams := [{ r with status := run_ffmpeg_final_marker spawn ec }]
              markers := []
              pidFiles := []
              procs := []
              logs := [] })) := by
  cases spawn with
  | ok u =>
    cases u
    refine ⟨⟨fun _ => rfl, fun _ => rfl⟩, ?_⟩
    intro e he
    cases he
  | error e0 =>
    constructor
    · constructor
      · intro hh
        exact absurd hh (errMarker_ne_completed e0)
      · intro hh
        cases hh
    · intro e he
      cases he
      refine ⟨rfl, errMarker_startsWith e0, ⟨" " ++ e0, ?_, ?_⟩, ?_⟩
      · show "error: " ++ e0 = "error:" ++ (" " ++ e0)
        rw [← String.append_assoc]
        rfl
      · intro hh
        have h3 : (" " ++ e0).data.length = ("" : String).data.length := by rw [hh]
        rw [String.data_append, List.length_append] at h3
        have h4 : (" " : String).data.length = 1 := rfl
        have h5 : ("" : String).data.length = 0 := rfl
        rw [h4, h5] at h3
        omega
      · intro r hst
        show reconcileAux 0 1 _ = _
        rw [reconcileAux]
        simp only [List.getElem?_cons_zero]
        show (if ("error: " ++ e0) = "completed" ∧ r.status = "Sedang Live" then _
              else if pyStartsWith ("error: " ++ e0) "error:" = true ∧
                  r.status = "Sedang Live" then _ else _) = _
        rw [if_neg (fun hc => errMarker_ne_completed e0 hc.1),
          if_pos ⟨errMarker_startsWith e0, hst⟩]
        show reconcileAux 1 0 _ = _
        rw [reconcileAux]
        rfl

/-- Witness for the amended worker-marker theorem at a concrete spawn
failure. -/
theorem marker_reflects_spawn_outcome_not_exit_code_witness :
    pyStartsWith (run_ffmpeg_final_marker (Except.error "boom") 0) "error:" = true :=
  ((marker_reflects_spawn_outcome_not_exit_code (Except.error "boom") 0).2
    "boom" rfl).2.1

/-- C2 counterexample: with records A (id 0, terminal) and B (id 1) in
the store, removing id 0 renumbers the survivor
(`drop(0).reset_index(drop=True)`): id 1, assigned to B at creation, no
longer identifies any record although B was never removed, and id 0 —
assigned earlier to A — now identifies B. Ids are neither stable for
the record's lifetime nor never reused. -/
theorem remove_renumbers_surviving_job_ids :
    jobDone ≠ jobWaiting ∧
    [jobDone, jobWaiting][0]? = some jobDone ∧
    [jobDone, jobWaiting][1]? = some jobWaiting ∧
    remove_stream [jobDone, jobWaiting] [] 0 = .ok ([jobWaiting], []) ∧
    [jobWaiting][1]? = none ∧
    [jobWaiting][0]? = some jobWaiting :=
  ⟨by decide, by decide, by decide, rfl, by decide, by decide⟩

/-- C2 amended: job ids are positional indices. At any instant ids are
distinct; creation assigns the fresh id `streams.length` — an id no
existing record holds — and preserves every existing id's record. A
removal, however, shifts every record with a larger id down by one, so
an id stays bound to its record only until some record with a smaller
id is removed, and earlier-assigned ids are reused by the shifted
survivors. -/
theorem ids_positional_create_fresh_remove_shifts
    (streams : List StreamRow) (vp sk du jm : String) (sh : Bool)
    (hvp : vp ≠ "") (hsk : sk ≠ "") :
    (add_stream streams vp sk du jm sh
        = .ok (streams ++ [new_stream vp sk du jm sh]) ∧
     streams[streams.length]? = none ∧
     (streams ++ [new_stream vp sk du jm sh])[streams.length]?
        = some (new_stream vp sk du jm sh) ∧
     (∀ j, j < streams.length →
       (streams ++ [new_stream vp sk du jm sh])[j]? = streams[j]?)) ∧
    (∀ (i : Nat) (logs : List (Nat × List String)) (r : StreamRow),
      streams[i]? = some r → is_terminal r.status = true →
      remove_stream streams logs i = .ok (streams.eraseIdx i, aerase i logs) ∧
      (∀ j, j < i → (streams.eraseIdx i)[j]? = streams[j]?) ∧
      (∀ j, i ≤ j → (streams.eraseIdx i)[j]? = streams[j + 1]?)) := by
  constructor
  · refine ⟨by simp only [add_stream, if_pos (And.intro hvp hsk)], ?_, ?_, ?_⟩
    · exact List.getElem?_eq_none (Nat.le_refl _)
    · exact getElem?_concat_self streams _
    · intro j hj
      exact getElem?_append_lt streams _ j hj
  · intro i logs r hr ht
    refine ⟨by simp only [remove_stream, hr, ht, if_true], ?_, ?_⟩
    · intro j hj
      exact getElem?_eraseIdx_lt streams i j hj
    · intro j hj
      exact getElem?_eraseIdx_ge streams i j hj

/-- Witness for the amended id theorem: one creation and one removal on
concrete stores. -/
theorem ids_positional_create_fresh_remove_shifts_witness :
    add_stream [jobDone] "a.mp4" "key1" "01:00:00" "10:00" false
      = .ok ([jobDone] ++ [new_stream "a.mp4" "key1" "01:00:00" "10:00" false]) ∧
    remove_stream [jobDone] [] 0 = .ok ([jobDone].eraseIdx 0, aerase 0 []) :=
  ⟨(ids_positional_create_fresh_remove_shifts [jobDone] "a.mp4" "key1"
      "01:00:00" "10:00" false (by decide) (by decide)).1.1,
   ((ids_positional_create_fresh_remove_shifts [jobDone] "a.mp4" "key1"
      "01:00:00" "10:00" false (by decide) (by decide)).2 0 [] jobDone
      (by decide) (by decide)).1⟩

/-- C3: on a scheduler tick at wall-clock minute `now`, every job whose
status is `Menunggu` (Waiting) and whose scheduled time equals `now` is
triggered — `start_stream` is invoked for it, leaving its marker at
`starting` (the spec's Starting step, which `start_stream` applies
together with the synchronous transition to `Sedang Live`, the code's
Live) and recording it in the triggered list — and all matching jobs
are triggered in the one tick; a job whose status is not Waiting is
never triggered and is left unchanged; re-running the same tick on the
resulting state triggers nothing and changes nothing. -/
theorem scheduler_tick_triggers_matching_waiting_jobs_once
    (s : SupState) (now : String) :
    (∀ idx r, s.streams[idx]? = some r →
      ((r.status = "Menunggu" ∧ r.jamMulai = now →
        (check_scheduled_streams s now).1.streams[idx]?
          = some { r with status := "Sedang Live" } ∧
        alookup idx (check_scheduled_streams s now).1.markers = some "starting" ∧
        idx ∈ (check_scheduled_streams s now).2) ∧
       (r.status ≠ "Menunggu" →
        (check_scheduled_streams s now).1.streams[idx]? = some r ∧
        idx ∉ (check_scheduled_streams s now).2))) ∧
    check_scheduled_streams (check_scheduled_streams s now).1 now
      = ((check_scheduled_streams s now).1, []) := by
  simp only [check_scheduled_streams]
  constructor
  · intro idx r hr
    have hidx : idx < s.streams.length := getElem?_some_lt hr
    have hmain := schedAux_main now s.streams.length 0 s idx r
      (Nat.zero_le idx) (by omega) hr
    refine ⟨hmain.1, fun hnw => ?_⟩
    obtain ⟨ha, _, hc⟩ := hmain.2 (fun hcc => hnw hcc.1)
    exact ⟨ha, hc⟩
  · apply schedAux_nomatch
    intro idx r' _ hr'
    have hlen : (schedAux now 0 s.streams.length s).1.streams.length
        = s.streams.length := schedAux_length now s.streams.length 0 s
    have hidx : idx < s.streams.length := by
      have hl := getElem?_some_lt hr'
      rw [hlen] at hl
      exact hl
    obtain ⟨r, hrs⟩ := getElem?_of_lt hidx
    have hmain := schedAux_main now s.streams.length 0 s idx r
      (Nat.zero_le idx) (by omega) hrs
    by_cases hc : r.status = "Menunggu" ∧ r.jamMulai = now
    · obtain ⟨ha, _, _⟩ := hmain.1 hc
      rw [hr'] at ha
      injection ha with heq
      intro hcon
      rw [heq] at hcon
      have h1 : ("Sedang Live" : String) = "Menunggu" := hcon.1
      exact absurd h1 (by decide)
    · obtain ⟨ha, _, _⟩ := hmain.2 hc
      rw [hr'] at ha
      injection ha with heq
      rw [heq]
      exact hc

/-- C6: one reconciliation pass treats each job as follows — a job
whose store status is `Sedang Live` (Live) with marker `completed` gets
status `Selesai` (Completed) and its marker deleted; a Live job whose
marker begins with `error:` gets the marker string as its status (the
string-encoded Error carrying the message) and its marker deleted; in
every other combination of status and marker both the status and the
marker are left exactly as they were. -/
theorem reconciliation_consumes_markers_only_when_live
    (s : SupState) (idx : Nat) (r : StreamRow)
    (h : s.streams[idx]? = some r) :
    (alookup idx s.markers = some "completed" ∧ r.status = "Sedang Live" →
      (check_stream_statuses s).streams[idx]? = some { r with status := "Selesai" } ∧
      alookup idx (check_stream_statuses s).markers = none) ∧
    (∀ m, alookup idx s.markers = some m → pyStartsWith m "error:" = true →
      r.status = "Sedang Live" →
      (check_stream_statuses s).streams[idx]? = some { r with status := m } ∧
      alookup idx (check_stream_statuses s).markers = none) ∧
    (r.status ≠ "Sedang Live" ∨ alookup idx s.markers = none ∨
      (∃ m, alookup idx s.markers = some m ∧ m ≠ "completed" ∧
        pyStartsWith m "error:" = false) →
      (check_stream_statuses s).streams[idx]? = some r ∧
      alookup idx (check_stream_statuses s).markers = alookup idx s.markers) := by
  have hidx : idx < s.streams.length := getElem?_some_lt h
  exact reconcileAux_main s.streams.length 0 s idx r (Nat.zero_le idx) (by omega) h

/-- Witness for the reconciliation theorem: a Live job with a pending
`completed` marker really transitions to `Selesai` with the marker
gone. -/
theorem reconciliation_consumes_markers_only_when_live_witness :
    (check_stream_statuses liveCompletedState).streams[0]?
      = some { jobLive with status := "Selesai" } ∧
    alookup 0 (check_stream_statuses liveCompletedState).markers = none :=
  (reconciliation_consumes_markers_only_when_live liveCompletedState 0 jobLive
    (by decide)).1 ⟨by decide, by decide⟩

end LiveYT
